import Mathlib

/-!
# Verification of the NYC taxi data pipeline

Shallow embedding of the core logic of the repository:

* `backend/algorithm.py` — mobility scoring, the hand-rolled in-place
  insertion sort (descending by score) and dense rank assignment;
* `backend/clean_data.py` — the cleaning pipeline (duplicate removal,
  missing-value drops, the nine plausibility filters, feature derivation
  with the speed filter, time-of-day bucketing, zone enrichment).

Numbers are modelled exactly: Python floats become `ℚ`, timestamps become
integer seconds, Python `round(x, 2)` becomes round-half-to-even on `ℚ`
scaled by 100, and nullable columns become `Option` values (a comparison
against a missing value is `false`, as it is for a float `NaN`).
-/

namespace NycTaxi

/-- Round-half-to-even on rationals: the semantics of Python's built-in
`round` at the value level (ties go to the even integer). -/
def round_half_even (x : ℚ) : ℤ :=
  if x - ⌊x⌋ = 1 / 2 then (if 2 ∣ ⌊x⌋ then ⌊x⌋ else ⌊x⌋ + 1)
  else round x

/-- Python's `round(x, 2)`: round to two decimal places. -/
def round2 (x : ℚ) : ℚ :=
  (round_half_even (x * 100) : ℚ) / 100

/-- A zone-statistics record as built by `get_zone_stats` /
`rank_zones` in `backend/algorithm.py`: a dict with zone name, borough,
trip count, rounded average fare and distance, and (once computed) the
mobility score. -/
structure ZoneRec where
  zone : String
  borough : String
  trip_count : ℤ
  avg_fare : ℚ
  avg_distance : ℚ
  score : ℚ
deriving DecidableEq, Repr

/-- `mobility_score` from `backend/algorithm.py`:
`round((trip_count / 1000) + (avg_fare * 0.5) + (avg_distance * 2), 2)`. -/
def mobility_score (zone : ZoneRec) : ℚ :=
  round2 ((zone.trip_count / 1000 : ℚ) + zone.avg_fare * (1 / 2) + zone.avg_distance * 2)

/-- The inner `while` loop of `insertion_sort`
(`while j >= 0 and zones[j]["score"] < current["score"]: zones[j+1] = zones[j]; j -= 1`
followed by `zones[j+1] = current`).  The argument `jp1` stands for `j + 1`,
so the loop terminates by placing `current` at index `jp1` once the guard
fails or `j` drops below zero. -/
def shiftLoop (current : ZoneRec) : List ZoneRec → ℕ → List ZoneRec
  | zs, 0 => zs.set 0 current
  | zs, k + 1 =>
    match zs[k]? with
    | some zk =>
      if zk.score < current.score then
        shiftLoop current (zs.set (k + 1) zk) k
      else
        zs.set (k + 1) current
    | none => zs.set (k + 1) current

/-- The outer `for i in range(1, n)` loop of `insertion_sort`; `fuel`
counts the remaining iterations and `i` is the loop index. -/
def isortLoop : ℕ → List ZoneRec → ℕ → List ZoneRec
  | 0, zs, _ => zs
  | fuel + 1, zs, i =>
    match zs[i]? with
    | some current => isortLoop fuel (shiftLoop current zs i) (i + 1)
    | none => zs

/-- `insertion_sort` from `backend/algorithm.py`: in-place insertion sort
of the zone list in descending order of `score`. -/
def insertion_sort (zones : List ZoneRec) : List ZoneRec :=
  isortLoop (zones.length - 1) zones 1

/-- Rank assignment from `rank_zones`
(`for i, z in enumerate(sorted_zones): z["rank"] = i + 1`):
pair each zone of the sorted list with its 1-based position. -/
def assign_ranks (sorted_zones : List ZoneRec) : List (ZoneRec × ℕ) :=
  sorted_zones.enum.map (fun p => (p.2, p.1 + 1))

/-! ## Functional description of the sort, used in the proofs -/

/-- Insert `x` into a (descending-sorted) list just before the first
element of strictly smaller score: the position at which the imperative
shift loop deposits `current`. -/
def insertD (x : ZoneRec) : List ZoneRec → List ZoneRec
  | [] => [x]
  | y :: ys => if y.score < x.score then x :: y :: ys else y :: insertD x ys

/-- Left-to-right insertion sort (descending, stable): the functional
counterpart of `insertion_sort`. -/
def sortD (zones : List ZoneRec) : List ZoneRec :=
  zones.foldl (fun acc z => insertD z acc) []

/-- The concrete zones of the spec's stable-sort scenario. -/
def zoneA : ZoneRec := ⟨"A", "X", 0, 0, 0, 10⟩

def zoneB : ZoneRec := ⟨"B", "X", 0, 0, 0, 10⟩

def zoneC : ZoneRec := ⟨"C", "X", 0, 0, 0, 20⟩

/-! ## The cleaning pipeline (`backend/clean_data.py`) -/

/-- A raw trip row, restricted to the columns the cleaning logic reads.
Timestamps are integer seconds (a failed parse is `none`, like `NaT`);
numeric columns are `Option ℚ` (`none` models `NaN`). -/
structure RawTrip where
  pickup_datetime : Option ℤ
  dropoff_datetime : Option ℤ
  pickup_location_id : Option ℚ
  dropoff_location_id : Option ℚ
  passenger_count : Option ℚ
  trip_distance : Option ℚ
  fare_amount : Option ℚ
  tip_amount : Option ℚ
deriving DecidableEq, Repr

/-- Helper for `drop_duplicates`: keep the first occurrence of every
full-row value, tracking the rows already seen. -/
def dropDuplicatesAux (seen : List RawTrip) : List RawTrip → List RawTrip
  | [] => []
  | t :: ts =>
    if t ∈ seen then dropDuplicatesAux seen ts
    else t :: dropDuplicatesAux (t :: seen) ts

/-- `trips.drop_duplicates()`: remove exact full-row duplicates, keeping
the first occurrence of each row. -/
def dropDuplicates (trips : List RawTrip) : List RawTrip :=
  dropDuplicatesAux [] trips

/-- `trips['passenger_count'].fillna(1)`. -/
def fillPassenger (t : RawTrip) : RawTrip :=
  { t with passenger_count := some (t.passenger_count.getD 1) }

/-- The condition of `trips.dropna(subset=[...])`: some critical column
is missing. -/
def hasMissingCritical (t : RawTrip) : Bool :=
  t.pickup_datetime.isNone || t.dropoff_datetime.isNone ||
    t.pickup_location_id.isNone || t.dropoff_location_id.isNone ||
    t.fare_amount.isNone || t.trip_distance.isNone

/-- `remove_bad(df, mask, label, log)`: record the count of rows matching
the bad-row mask (`mask.sum()`) and return the remaining rows (`df[~mask]`). -/
def remove_bad (df : List RawTrip) (mask : RawTrip → Bool) : ℕ × List RawTrip :=
  (df.countP mask, df.filter (fun t => !mask t))

/-- Mask `trips['fare_amount'] <= 0` (a missing value compares `false`). -/
def fare_nonpos (t : RawTrip) : Bool :=
  match t.fare_amount with
  | some f => decide (f ≤ 0)
  | none => false

/-- Mask `trips['trip_distance'] <= 0`. -/
def dist_nonpos (t : RawTrip) : Bool :=
  match t.trip_distance with
  | some d => decide (d ≤ 0)
  | none => false

/-- Mask `trips['trip_distance'] > 200`. -/
def dist_over_200 (t : RawTrip) : Bool :=
  match t.trip_distance with
  | some d => decide (200 < d)
  | none => false

/-- Mask `trips['fare_amount'] > 1000`. -/
def fare_over_1000 (t : RawTrip) : Bool :=
  match t.fare_amount with
  | some f => decide (1000 < f)
  | none => false

/-- Mask `(trips['passenger_count'] <= 0) | (trips['passenger_count'] > 6)`. -/
def passenger_invalid (t : RawTrip) : Bool :=
  match t.passenger_count with
  | some p => decide (p ≤ 0) || decide (6 < p)
  | none => false

/-- Mask `trips['dropoff_datetime'] <= trips['pickup_datetime']`. -/
def dropoff_le_pickup (t : RawTrip) : Bool :=
  match t.pickup_datetime, t.dropoff_datetime with
  | some p, some d => decide (d ≤ p)
  | _, _ => false

/-- `(dropoff_datetime - pickup_datetime).dt.total_seconds()`. -/
def durationSecs (t : RawTrip) : Option ℤ :=
  match t.pickup_datetime, t.dropoff_datetime with
  | some p, some d => some (d - p)
  | _, _ => none

/-- Mask `duration > 86400`. -/
def duration_over_86400 (t : RawTrip) : Bool :=
  match durationSecs t with
  | some d => decide (86400 < d)
  | none => false

/-- Mask `duration < 60`. -/
def duration_under_60 (t : RawTrip) : Bool :=
  match durationSecs t with
  | some d => decide (d < 60)
  | none => false

/-- `trip_duration_mins = (duration_seconds / 60).round(2)`. -/
def trip_duration_mins (t : RawTrip) : Option ℚ :=
  (durationSecs t).map (fun d => round2 ((d : ℚ) / 60))

/-- `avg_speed_mph = (trip_distance / (trip_duration_mins / 60)).round(2)`. -/
def avg_speed_mph (t : RawTrip) : Option ℚ :=
  match t.trip_distance, trip_duration_mins t with
  | some dist, some mins => some (round2 (dist / (mins / 60)))
  | _, _ => none

/-- `tip_percentage = ((tip_amount / fare_amount) * 100).round(2).clip(0, 100).fillna(0)`.
Missing operands propagate (and `fillna` turns the result into 0); a zero
fare yields an infinite or undefined quotient, which `clip`/`fillna` turn
into 100 or 0 according to the sign of the tip. -/
def tip_percentage (t : RawTrip) : ℚ :=
  match t.tip_amount, t.fare_amount with
  | some tip, some fare =>
    if fare = 0 then (if 0 < tip then 100 else 0)
    else min 100 (max 0 (round2 (tip / fare * 100)))
  | _, _ => 0

/-- `hour_of_day = pickup_datetime.dt.hour` on integer-second timestamps. -/
def hour_of_day (t : RawTrip) : Option ℤ :=
  t.pickup_datetime.map (fun ts => ts % 86400 / 3600)

/-- `get_time_of_day(hour)` from `backend/clean_data.py`. -/
def get_time_of_day (hour : ℤ) : String :=
  if 5 ≤ hour ∧ hour < 9 then "Morning Rush"
  else if 9 ≤ hour ∧ hour < 12 then "Mid Morning"
  else if 12 ≤ hour ∧ hour < 17 then "Afternoon"
  else if 17 ≤ hour ∧ hour < 20 then "Evening Rush"
  else if 20 ≤ hour ∧ hour < 24 then "Night"
  else "Late Night"

/-- A trip row after Step 6 of the pipeline: the raw columns plus the
derived feature columns. -/
structure CleanTrip where
  trip : RawTrip
  trip_duration_mins : Option ℚ
  avg_speed_mph : Option ℚ
  tip_percentage : ℚ
  hour_of_day : Option ℤ
  time_of_day : Option String
deriving DecidableEq, Repr

/-- Step 6 of the pipeline: attach the derived feature columns. -/
def deriveFeatures (t : RawTrip) : CleanTrip :=
  ⟨t, trip_duration_mins t, avg_speed_mph t, tip_percentage t,
    hour_of_day t, (hour_of_day t).map get_time_of_day⟩

/-- `trips['avg_speed_mph'].between(1, 150)` (inclusive on both ends; a
missing value compares `false`). -/
def speed_in_range (c : CleanTrip) : Bool :=
  match c.avg_speed_mph with
  | some s => decide (1 ≤ s) && decide (s ≤ 150)
  | none => false

/-- The `cleaning_log` counters: original row count, rows removed by each
pass, and the surviving row count. -/
structure CleaningLog where
  original_rows : ℕ
  duplicates : ℕ
  missing_critical : ℕ
  fare_nonpos : ℕ
  dist_nonpos : ℕ
  dist_over_200 : ℕ
  fare_over_1000 : ℕ
  passenger_invalid : ℕ
  dropoff_le_pickup : ℕ
  over_24h : ℕ
  under_60s : ℕ
  speed_out_of_range : ℕ
  final_rows : ℕ
deriving DecidableEq, Repr

/-- Steps 3-6 of `backend/clean_data.py`: duplicate removal, the
missing-value drop, the eight `remove_bad` plausibility passes in source
order, feature derivation and the speed filter; returns the removal
counters together with the surviving rows. -/
def clean_pipeline (trips0 : List RawTrip) : CleaningLog × List CleanTrip :=
  let trips1 := dropDuplicates trips0
  let trips2 := trips1.map fillPassenger
  let trips3 := trips2.filter (fun t => !hasMissingCritical t)
  let trips4 := (remove_bad trips3 fare_nonpos).2
  let trips5 := (remove_bad trips4 dist_nonpos).2
  let trips6 := (remove_bad trips5 dist_over_200).2
  let trips7 := (remove_bad trips6 fare_over_1000).2
  let trips8 := (remove_bad trips7 passenger_invalid).2
  let trips9 := (remove_bad trips8 dropoff_le_pickup).2
  let trips10 := (remove_bad trips9 duration_over_86400).2
  let trips11 := (remove_bad trips10 duration_under_60).2
  let derived := trips11.map deriveFeatures
  let final := derived.filter speed_in_range
  (⟨trips0.length,
    trips0.length - trips1.length,
    trips2.countP hasMissingCritical,
    (remove_bad trips3 fare_nonpos).1,
    (remove_bad trips4 dist_nonpos).1,
    (remove_bad trips5 dist_over_200).1,
    (remove_bad trips6 fare_over_1000).1,
    (remove_bad trips7 passenger_invalid).1,
    (remove_bad trips8 dropoff_le_pickup).1,
    (remove_bad trips9 duration_over_86400).1,
    (remove_bad trips10 duration_under_60).1,
    derived.countP (fun c => !speed_in_range c),
    final.length⟩, final)

/-! ## Zone enrichment (Step 7 of `backend/clean_data.py`) -/

/-- One row of the zone lookup table (`taxi_zone_lookup.csv` after the
rename in Step 7). -/
structure ZoneRow where
  location_id : ℚ
  borough : String
  zone : String
deriving DecidableEq, Repr

/-- A trip after one zone merge: the trip together with the attached
borough and zone name (null when the key had no match). -/
structure EnrichedTrip where
  trip : CleanTrip
  borough : Option String
  zone : Option String
deriving DecidableEq, Repr

/-- One `trips.merge(zones[...], left_on=key, right_on='location_id',
how='left')` step: each trip is paired with every matching zone row, and
a trip without a match is kept once with null borough/zone columns. -/
def merge_zones (trips : List CleanTrip) (zones : List ZoneRow)
    (key : CleanTrip → Option ℚ) : List EnrichedTrip :=
  trips.flatMap (fun t =>
    match zones.filter (fun z => key t == some z.location_id) with
    | [] => [⟨t, none, none⟩]
    | ms => ms.map (fun z => ⟨t, some z.borough, some z.zone⟩))

/-- The key of the pickup-side merge. -/
def pickupKey (c : CleanTrip) : Option ℚ :=
  c.trip.pickup_location_id

/-- The key of the dropoff-side merge. -/
def dropoffKey (c : CleanTrip) : Option ℚ :=
  c.trip.dropoff_location_id

/-! ## Properties of the insertion sort -/

theorem insertD_length (x : ZoneRec) (l : List ZoneRec) :
    (insertD x l).length = l.length + 1 := by
  induction l with
  | nil => rfl
  | cons y ys ih =>
    rw [insertD]
    split
    · simp
    · simp [ih]

theorem insertD_perm (x : ZoneRec) (l : List ZoneRec) :
    (insertD x l).Perm (x :: l) := by
  induction l with
  | nil => exact List.Perm.refl _
  | cons y ys ih =>
    rw [insertD]
    split
    · exact List.Perm.refl _
    · exact (ih.cons y).trans (List.Perm.swap x y ys)

theorem insertD_sorted (x : ZoneRec) {l : List ZoneRec}
    (h : l.Sorted (fun a b => b.score ≤ a.score)) :
    (insertD x l).Sorted (fun a b => b.score ≤ a.score) := by
  induction l with
  | nil => exact List.sorted_singleton x
  | cons y ys ih =>
    rw [List.sorted_cons] at h
    obtain ⟨hy, hys⟩ := h
    rw [insertD]
    split
    · rename_i hlt
      rw [List.sorted_cons]
      refine ⟨?_, List.sorted_cons.mpr ⟨hy, hys⟩⟩
      intro b hb
      rcases List.mem_cons.mp hb with hb | hb
      · exact hb ▸ le_of_lt hlt
      · exact le_trans (hy b hb) (le_of_lt hlt)
    · rename_i hge
      rw [List.sorted_cons]
      refine ⟨?_, ih hys⟩
      intro b hb
      rcases List.mem_cons.mp ((insertD_perm x ys).mem_iff.mp hb) with hb | hb
      · exact hb ▸ not_lt.mp hge
      · exact hy b hb


theorem insertD_append_last {x zk : ZoneRec} (l : List ZoneRec)
    (h : zk.score < x.score) :
    insertD x (l ++ [zk]) = insertD x l ++ [zk] := by
  induction l with
  | nil => simp [insertD, h]
  | cons y ys ih =>
    rw [List.cons_append, insertD, insertD]
    split
    · rfl
    · rw [ih]
      rfl

theorem insertD_eq_append {x : ZoneRec} {l : List ZoneRec}
    (h : ∀ y ∈ l, x.score ≤ y.score) :
    insertD x l = l ++ [x] := by
  induction l with
  | nil => rfl
  | cons y ys ih =>
    rw [insertD, if_neg (not_lt.mpr (h y (List.mem_cons_self y ys)))]
    rw [ih (fun z hz => h z (List.mem_cons_of_mem y hz))]
    rfl

theorem shiftLoop_eq (current : ZoneRec) :
    ∀ (jp1 : ℕ) (zs : List ZoneRec), jp1 < zs.length →
    (zs.take jp1).Sorted (fun a b => b.score ≤ a.score) →
    shiftLoop current zs jp1 = insertD current (zs.take jp1) ++ zs.drop (jp1 + 1) := by
  intro jp1
  induction jp1 with
  | zero =>
    intro zs h _
    rw [shiftLoop, List.set_eq_take_cons_drop current h]
    simp [insertD]
  | succ k ih =>
    intro zs h hs
    have hk : k < zs.length := Nat.lt_of_succ_lt h
    have hget : zs[k]? = some zs[k] := List.getElem?_eq_getElem hk
    have htsucc : zs.take (k + 1) = zs.take k ++ [zs[k]] := by
      rw [List.take_succ, hget]
      rfl
    have hlentake : (zs.take (k + 1)).length = k + 1 := by
      rw [List.length_take]
      omega
    simp only [shiftLoop, hget]
    by_cases hlt : zs[k].score < current.score
    · rw [if_pos hlt]
      have hset : zs.set (k + 1) zs[k] = zs.take (k + 1) ++ zs[k] :: zs.drop (k + 2) :=
        List.set_eq_take_cons_drop _ h
      have htake : (zs.set (k + 1) zs[k]).take k = zs.take k := by
        rw [hset, List.take_append_of_le_length (by omega), List.take_take]
        congr 1
        omega
      have hdrop : (zs.set (k + 1) zs[k]).drop (k + 1) = zs[k] :: zs.drop (k + 2) := by
        rw [hset, List.drop_left' hlentake]
      have hsorted : ((zs.set (k + 1) zs[k]).take k).Sorted (fun a b => b.score ≤ a.score) := by
        rw [htake]
        have hkk : zs.take k = (zs.take (k + 1)).take k := by
          rw [List.take_take]
          congr 1
          omega
        rw [hkk]
        exact List.Pairwise.sublist (List.take_sublist _ _) hs
      rw [ih (zs.set (k + 1) zs[k]) (by rw [List.length_set]; exact hk) hsorted, htake, hdrop]
      rw [htsucc, insertD_append_last _ hlt]
      simp
    · rw [if_neg hlt]
      rw [List.set_eq_take_cons_drop current h]
      have hall : ∀ y ∈ zs.take (k + 1), current.score ≤ y.score := by
        intro y hy
        rw [htsucc] at hy
        rcases List.mem_append.mp hy with hy | hy
        · have hs' := htsucc ▸ hs
          have hrel := (List.pairwise_append.mp hs').2.2 y hy zs[k] (List.mem_singleton_self _)
          exact le_trans (not_lt.mp hlt) hrel
        · rw [List.mem_singleton.mp hy]
          exact not_lt.mp hlt
      rw [insertD_eq_append hall]
      simp

theorem isortLoop_eq :
    ∀ (fuel : ℕ) (zs : List ZoneRec) (i : ℕ), fuel = zs.length - i →
    (zs.take i).Sorted (fun a b => b.score ≤ a.score) →
    isortLoop fuel zs i = (zs.drop i).foldl (fun acc z => insertD z acc) (zs.take i) := by
  intro fuel
  induction fuel with
  | zero =>
    intro zs i hf _
    have hlen : zs.length ≤ i := by omega
    rw [isortLoop, List.drop_eq_nil_of_le hlen, List.take_of_length_le hlen]
    rfl
  | succ fuel ih =>
    intro zs i hf hs
    have hi : i < zs.length := by omega
    have hget : zs[i]? = some zs[i] := List.getElem?_eq_getElem hi
    simp only [isortLoop, hget]
    rw [shiftLoop_eq _ i zs hi hs]
    have hAlen : (insertD zs[i] (zs.take i)).length = i + 1 := by
      rw [insertD_length, List.length_take]
      omega
    have h1 : ((insertD zs[i] (zs.take i)) ++ zs.drop (i + 1)).take (i + 1) =
        insertD zs[i] (zs.take i) := List.take_left' hAlen
    have h2 : ((insertD zs[i] (zs.take i)) ++ zs.drop (i + 1)).drop (i + 1) =
        zs.drop (i + 1) := List.drop_left' hAlen
    have hlen3 : ((insertD zs[i] (zs.take i)) ++ zs.drop (i + 1)).length = zs.length := by
      rw [List.length_append, hAlen, List.length_drop]
      omega
    have hsorted : (((insertD zs[i] (zs.take i)) ++ zs.drop (i + 1)).take (i + 1)).Sorted
        (fun a b => b.score ≤ a.score) := by
      rw [h1]
      exact insertD_sorted _ hs
    rw [ih _ (i + 1) (by omega) hsorted, h1, h2]
    rw [List.drop_eq_getElem_cons hi, List.foldl_cons]

theorem insertion_sort_eq_sortD (zones : List ZoneRec) :
    insertion_sort zones = sortD zones := by
  cases zones with
  | nil => rfl
  | cons z zs =>
    rw [insertion_sort]
    rw [isortLoop_eq ((z :: zs).length - 1) (z :: zs) 1 (by simp) (by simp)]
    rfl

theorem foldl_insertD_perm :
    ∀ (l acc : List ZoneRec),
    (l.foldl (fun acc z => insertD z acc) acc).Perm (acc ++ l) := by
  intro l
  induction l with
  | nil => simp
  | cons z zs ih =>
    intro acc
    rw [List.foldl_cons]
    refine ((ih (insertD z acc)).trans ?_)
    refine (((insertD_perm z acc).append_right zs).trans ?_)
    exact List.perm_middle.symm

theorem sortD_perm (zones : List ZoneRec) : (sortD zones).Perm zones := by
  simpa using foldl_insertD_perm zones []

theorem foldl_insertD_sorted :
    ∀ (l acc : List ZoneRec), acc.Sorted (fun a b => b.score ≤ a.score) →
    (l.foldl (fun acc z => insertD z acc) acc).Sorted (fun a b => b.score ≤ a.score) := by
  intro l
  induction l with
  | nil => exact fun acc h => h
  | cons z zs ih =>
    intro acc h
    rw [List.foldl_cons]
    exact ih _ (insertD_sorted z h)

theorem sortD_sorted (zones : List ZoneRec) :
    (sortD zones).Sorted (fun a b => b.score ≤ a.score) :=
  foldl_insertD_sorted zones [] (List.sorted_nil)

theorem insertD_filter_of_neg (x : ZoneRec) (l : List ZoneRec)
    (p : ZoneRec → Bool) (hpx : p x = false) :
    (insertD x l).filter p = l.filter p := by
  induction l with
  | nil => simp [insertD, hpx]
  | cons y ys ih =>
    rw [insertD]
    split
    · simp [List.filter_cons, hpx]
    · simp [List.filter_cons, ih]

theorem insertD_filter_of_eq {s : ℚ} (x : ZoneRec) {l : List ZoneRec}
    (hx : x.score = s) (hs : l.Sorted (fun a b => b.score ≤ a.score)) :
    (insertD x l).filter (fun z => decide (z.score = s)) =
      l.filter (fun z => decide (z.score = s)) ++ [x] := by
  induction l with
  | nil => simp [insertD, hx]
  | cons y ys ih =>
    rw [List.sorted_cons] at hs
    obtain ⟨hy, hys⟩ := hs
    rw [insertD]
    split
    · rename_i hlt
      have hnil : (y :: ys).filter (fun z => decide (z.score = s)) = [] := by
        rw [List.filter_eq_nil_iff]
        intro a ha
        have : a.score < s := by
          rcases List.mem_cons.mp ha with h | h
          · rw [h, ← hx]
            exact hlt
          · calc a.score ≤ y.score := hy a h
              _ < x.score := hlt
              _ = s := hx
        simp [ne_of_lt this]
      rw [hnil]
      simp [List.filter_cons, hx, hnil]
    · rw [List.filter_cons, List.filter_cons, ih hys]
      by_cases hpy : y.score = s
      · simp [hpy]
      · simp [hpy]

theorem foldl_insertD_filter (s : ℚ) :
    ∀ (l acc : List ZoneRec), acc.Sorted (fun a b => b.score ≤ a.score) →
    (l.foldl (fun acc z => insertD z acc) acc).filter (fun z => decide (z.score = s)) =
      acc.filter (fun z => decide (z.score = s)) ++ l.filter (fun z => decide (z.score = s)) := by
  intro l
  induction l with
  | nil => simp
  | cons z zs ih =>
    intro acc hacc
    rw [List.foldl_cons, ih _ (insertD_sorted z hacc), List.filter_cons]
    by_cases hz : z.score = s
    · rw [insertD_filter_of_eq z hz hacc]
      simp [hz]
    · rw [insertD_filter_of_neg z acc _ (by simp [hz])]
      simp [hz]

theorem sortD_filter (zones : List ZoneRec) (s : ℚ) :
    (sortD zones).filter (fun z => decide (z.score = s)) =
      zones.filter (fun z => decide (z.score = s)) := by
  simpa using foldl_insertD_filter s zones [] List.sorted_nil

/-- C1: `insertion_sort` returns the zones in non-increasing order of
score; it is stable (for every score value, the subsequence of zones
carrying that score is exactly the input subsequence, so equal-score
zones keep their input order); and on the spec's scenario
`[A(10), B(10), C(20)]` it returns `[C, A, B]`. -/
theorem insertion_sort_sorted_stable :
    (∀ zones : List ZoneRec,
      (insertion_sort zones).Sorted (fun a b => b.score ≤ a.score) ∧
      ∀ s : ℚ, (insertion_sort zones).filter (fun z => decide (z.score = s)) =
        zones.filter (fun z => decide (z.score = s))) ∧
    insertion_sort [zoneA, zoneB, zoneC] = [zoneC, zoneA, zoneB] := by
  refine ⟨fun zones => ⟨?_, fun s => ?_⟩, ?_⟩
  · rw [insertion_sort_eq_sortD]
    exact sortD_sorted zones
  · rw [insertion_sort_eq_sortD]
    exact sortD_filter zones s
  · decide

/-- C10: `insertion_sort` returns a permutation of its input: the
in-place shifting loses no element and duplicates none. -/
theorem insertion_sort_perm (zones : List ZoneRec) :
    (insertion_sort zones).Perm zones := by
  rw [insertion_sort_eq_sortD]
  exact sortD_perm zones

/-- C4: after sorting, the assigned ranks are exactly the 1-based
positions `1, 2, ..., n` — consecutive, unique, with no gaps, and never
shared even between equal-score zones. -/
theorem assign_ranks_dense (zones : List ZoneRec) :
    (assign_ranks (insertion_sort zones)).map Prod.snd = List.range' 1 zones.length := by
  have hlen : (insertion_sort zones).length = zones.length := by
    rw [insertion_sort_eq_sortD]
    exact (sortD_perm zones).length_eq
  rw [assign_ranks, List.map_map]
  have hcomp : (Prod.snd ∘ fun p : ℕ × ZoneRec => (p.2, p.1 + 1)) =
      (fun n => n + 1) ∘ Prod.fst := rfl
  rw [hcomp, ← List.map_map, List.enum_map_fst, hlen, List.range'_eq_map_range]
  exact List.map_congr_left (fun a _ => Nat.add_comm a 1)

/-- C3: `mobility_score` computes
`round((trip_count / 1000) + (avg_fare * 0.5) + (avg_distance * 2), 2)`,
and on `{trip_count: 1000, avg_fare: 10.00, avg_distance: 5.00}` it
yields `16.0`. -/
theorem mobility_score_formula :
    (∀ z : ZoneRec, mobility_score z =
      round2 ((z.trip_count : ℚ) / 1000 + z.avg_fare * (1 / 2) + z.avg_distance * 2)) ∧
    mobility_score ⟨"Z", "B", 1000, 10, 5, 0⟩ = 16 := by
  refine ⟨fun z => rfl, ?_⟩
  norm_num [mobility_score, round2, round_half_even, round_eq]

/-! ## Conservation of the cleaning counters -/

theorem countP_add_length_filter_not {α : Type} (p : α → Bool) (l : List α) :
    l.countP p + (l.filter (fun a => !p a)).length = l.length := by
  induction l with
  | nil => rfl
  | cons a l ih =>
    rw [List.countP_cons, List.filter_cons]
    cases h : p a <;> simp [h] <;> omega

theorem countP_not_add_length_filter {α : Type} (p : α → Bool) (l : List α) :
    l.countP (fun a => !p a) + (l.filter p).length = l.length := by
  induction l with
  | nil => rfl
  | cons a l ih =>
    rw [List.countP_cons, List.filter_cons]
    cases h : p a <;> simp [h] <;> omega

theorem dropDuplicatesAux_length_le (ts : List RawTrip) :
    ∀ seen, (dropDuplicatesAux seen ts).length ≤ ts.length := by
  induction ts with
  | nil => intro seen; exact Nat.le_refl 0
  | cons t ts ih =>
    intro seen
    rw [dropDuplicatesAux]
    split
    · exact Nat.le_succ_of_le (ih seen)
    · simpa using ih (t :: seen)

theorem dropDuplicates_length_le (ts : List RawTrip) :
    (dropDuplicates ts).length ≤ ts.length :=
  dropDuplicatesAux_length_le ts []

/-- C2: conservation law of the cleaning pipeline — the rows removed as
duplicates, plus the rows removed by each of the nine §4.1 predicates
(individually recorded in the `CleaningLog`), plus the speed-filter
removals, plus the surviving rows, add up to the original row count. -/
theorem clean_pipeline_conservation (trips0 : List RawTrip) :
    (clean_pipeline trips0).1.duplicates + (clean_pipeline trips0).1.missing_critical +
      (clean_pipeline trips0).1.fare_nonpos + (clean_pipeline trips0).1.dist_nonpos +
      (clean_pipeline trips0).1.dist_over_200 + (clean_pipeline trips0).1.fare_over_1000 +
      (clean_pipeline trips0).1.passenger_invalid + (clean_pipeline trips0).1.dropoff_le_pickup +
      (clean_pipeline trips0).1.over_24h + (clean_pipeline trips0).1.under_60s +
      (clean_pipeline trips0).1.speed_out_of_range + (clean_pipeline trips0).1.final_rows =
      (clean_pipeline trips0).1.original_rows := by
  simp only [clean_pipeline, remove_bad]
  set l1 := dropDuplicates trips0 with hl1
  set l2 := l1.map fillPassenger with hl2
  set l3 := l2.filter (fun t => !hasMissingCritical t) with hl3
  set l4 := l3.filter (fun t => !fare_nonpos t) with hl4
  set l5 := l4.filter (fun t => !dist_nonpos t) with hl5
  set l6 := l5.filter (fun t => !dist_over_200 t) with hl6
  set l7 := l6.filter (fun t => !fare_over_1000 t) with hl7
  set l8 := l7.filter (fun t => !passenger_invalid t) with hl8
  set l9 := l8.filter (fun t => !dropoff_le_pickup t) with hl9
  set l10 := l9.filter (fun t => !duration_over_86400 t) with hl10
  set l11 := l10.filter (fun t => !duration_under_60 t) with hl11
  set ld := l11.map deriveFeatures with hld
  set lf := ld.filter speed_in_range with hlf
  have e1 : l1.length ≤ trips0.length := dropDuplicates_length_le trips0
  have e2 : l2.length = l1.length := List.length_map _ _
  have e3 : l2.countP hasMissingCritical + l3.length = l2.length :=
    countP_add_length_filter_not _ _
  have e4 : l3.countP fare_nonpos + l4.length = l3.length :=
    countP_add_length_filter_not _ _
  have e5 : l4.countP dist_nonpos + l5.length = l4.length :=
    countP_add_length_filter_not _ _
  have e6 : l5.countP dist_over_200 + l6.length = l5.length :=
    countP_add_length_filter_not _ _
  have e7 : l6.countP fare_over_1000 + l7.length = l6.length :=
    countP_add_length_filter_not _ _
  have e8 : l7.countP passenger_invalid + l8.length = l7.length :=
    countP_add_length_filter_not _ _
  have e9 : l8.countP dropoff_le_pickup + l9.length = l8.length :=
    countP_add_length_filter_not _ _
  have e10 : l9.countP duration_over_86400 + l10.length = l9.length :=
    countP_add_length_filter_not _ _
  have e11 : l10.countP duration_under_60 + l11.length = l10.length :=
    countP_add_length_filter_not _ _
  have e12 : ld.length = l11.length := List.length_map _ _
  have e13 : ld.countP (fun c => !speed_in_range c) + lf.length = ld.length :=
    countP_not_add_length_filter _ _
  omega

/-- C5: `get_time_of_day` is exhaustive and mutually exclusive over the
integer hours 0–23 — each hour lands in exactly the bucket of its interval
(`[5,9)` Morning Rush, `[9,12)` Mid Morning, `[12,17)` Afternoon,
`[17,20)` Evening Rush, `[20,24)` Night, 0–4 Late Night) — and in
particular hours 4, 5, 8, 9 land in Late Night, Morning Rush,
Morning Rush, Mid Morning respectively. -/
theorem get_time_of_day_buckets :
    (∀ h : ℤ, 0 ≤ h → h ≤ 23 →
      ((get_time_of_day h = "Morning Rush" ↔ 5 ≤ h ∧ h < 9) ∧
       (get_time_of_day h = "Mid Morning" ↔ 9 ≤ h ∧ h < 12) ∧
       (get_time_of_day h = "Afternoon" ↔ 12 ≤ h ∧ h < 17) ∧
       (get_time_of_day h = "Evening Rush" ↔ 17 ≤ h ∧ h < 20) ∧
       (get_time_of_day h = "Night" ↔ 20 ≤ h ∧ h < 24) ∧
       (get_time_of_day h = "Late Night" ↔ 0 ≤ h ∧ h ≤ 4))) ∧
    get_time_of_day 4 = "Late Night" ∧ get_time_of_day 5 = "Morning Rush" ∧
    get_time_of_day 8 = "Morning Rush" ∧ get_time_of_day 9 = "Mid Morning" := by
  refine ⟨fun h h0 h23 => ?_, by decide, by decide, by decide, by decide⟩
  interval_cases h <;> refine ⟨?_, ?_, ?_, ?_, ?_, ?_⟩ <;> decide

/-- Witness for C5 at hour 8. -/
theorem get_time_of_day_buckets_witness :
    get_time_of_day 8 = "Morning Rush" :=
  ((get_time_of_day_buckets.1 8 (by decide) (by decide)).1).mpr (by decide)

/-- C6: the distance-over-200 filter is strict — a row is flagged exactly
when its distance strictly exceeds 200, a surviving row is exactly an
unflagged row of the input, a row with distance exactly 200.0 is not
flagged, and one with distance 200.01 is. -/
theorem dist_over_200_strict :
    (∀ t : RawTrip, dist_over_200 t = true ↔ ∃ d, t.trip_distance = some d ∧ 200 < d) ∧
    (∀ (l : List RawTrip) (t : RawTrip),
      t ∈ (remove_bad l dist_over_200).2 ↔ t ∈ l ∧ dist_over_200 t = false) ∧
    dist_over_200 ⟨none, none, none, none, none, some 200, none, none⟩ = false ∧
    dist_over_200 ⟨none, none, none, none, none, some (20001 / 100), none, none⟩ = true := by
  refine ⟨fun t => ?_, fun l t => ?_, ?_, ?_⟩
  · rcases t with ⟨p, d, pl, dl, pc, td, fa, ta⟩
    cases td <;> simp [dist_over_200]
  · simp [remove_bad, List.mem_filter]
  · norm_num [dist_over_200]
  · norm_num [dist_over_200]

/-- C7: for a record whose tip and fare are present with a positive fare,
`tip_percentage` is `(tip / fare) * 100` rounded to two decimals and then
clamped into `[0, 100]`; a missing tip yields 0 instead of a missing
value (the record is never removed — the function is total). -/
theorem tip_percentage_spec :
    (∀ (t : RawTrip) (tip fare : ℚ), t.tip_amount = some tip → t.fare_amount = some fare →
      0 < fare →
      tip_percentage t = min 100 (max 0 (round2 (tip / fare * 100)))) ∧
    (∀ t : RawTrip, t.tip_amount = none → tip_percentage t = 0) := by
  constructor
  · intro t tip fare htip hfare hpos
    simp [tip_percentage, htip, hfare, ne_of_gt hpos]
  · intro t htip
    simp [tip_percentage, htip]

/-- Witness for C7: tip 2 on fare 10 gives the clamped rounded
percentage; a missing tip gives 0. -/
theorem tip_percentage_spec_witness :
    tip_percentage ⟨none, none, none, none, none, none, some 10, some 2⟩ =
      min 100 (max 0 (round2 (2 / 10 * 100))) ∧
    tip_percentage ⟨none, none, none, none, none, none, some 10, none⟩ = 0 :=
  ⟨tip_percentage_spec.1 _ 2 10 rfl rfl (by norm_num),
   tip_percentage_spec.2 _ rfl⟩

/-- C9: the zone merge has left-outer-join semantics — a trip whose key
matches no zone row is retained once with null borough/zone fields, and a
trip whose key matches the zone row `z` appears with `z`'s borough and
zone name attached. -/
theorem merge_zones_left_join (zones : List ZoneRow) (trips : List CleanTrip)
    (key : CleanTrip → Option ℚ) (t : CleanTrip) (ht : t ∈ trips) :
    (zones.filter (fun z => key t == some z.location_id) = [] →
      (⟨t, none, none⟩ : EnrichedTrip) ∈ merge_zones trips zones key) ∧
    (∀ z : ZoneRow, zones.filter (fun z => key t == some z.location_id) = [z] →
      (⟨t, some z.borough, some z.zone⟩ : EnrichedTrip) ∈ merge_zones trips zones key) := by
  constructor
  · intro hempty
    refine List.mem_flatMap.mpr ⟨t, ht, ?_⟩
    rw [hempty]
    exact List.mem_singleton_self _
  · intro z hone
    refine List.mem_flatMap.mpr ⟨t, ht, ?_⟩
    rw [hone]
    exact List.mem_singleton_self _

/-- Witness for C9: location id 1 against a table holding only id 2 is
kept with null fields; against a table holding id 1 it gets that row's
borough and zone attached. -/
theorem merge_zones_left_join_witness :
    ((⟨⟨⟨none, none, some 1, none, none, none, none, none⟩, none, none, 0, none, none⟩,
        none, none⟩ : EnrichedTrip) ∈
      merge_zones [⟨⟨none, none, some 1, none, none, none, none, none⟩,
        none, none, 0, none, none⟩] [⟨2, "Bronx", "Kingsbridge"⟩] pickupKey) ∧
    ((⟨⟨⟨none, none, some 1, none, none, none, none, none⟩, none, none, 0, none, none⟩,
        some "Manhattan", some "Chinatown"⟩ : EnrichedTrip) ∈
      merge_zones [⟨⟨none, none, some 1, none, none, none, none, none⟩,
        none, none, 0, none, none⟩] [⟨1, "Manhattan", "Chinatown"⟩] pickupKey) :=
  ⟨(merge_zones_left_join [⟨2, "Bronx", "Kingsbridge"⟩]
      [⟨⟨none, none, some 1, none, none, none, none, none⟩, none, none, 0, none, none⟩]
      pickupKey _ (List.mem_singleton_self _)).1 (by simp [pickupKey]),
   (merge_zones_left_join [⟨1, "Manhattan", "Chinatown"⟩]
      [⟨⟨none, none, some 1, none, none, none, none, none⟩, none, none, 0, none, none⟩]
      pickupKey _ (List.mem_singleton_self _)).2 ⟨1, "Manhattan", "Chinatown"⟩
      (by simp [pickupKey])⟩

/-! ## Invariants of the cleaned output -/

theorem floor_le_round_half_even (x : ℚ) : ⌊x⌋ ≤ round_half_even x := by
  rw [round_half_even]
  split
  · split
    · exact le_refl _
    · exact le_of_lt (lt_add_one _)
  · rw [round_eq]
    exact Int.floor_le_floor (by linarith)

theorem one_le_round2 {x : ℚ} (hx : 1 ≤ x) : 1 ≤ round2 x := by
  rw [round2]
  have h100 : (100 : ℤ) ≤ ⌊x * 100⌋ := Int.le_floor.mpr (by push_cast; linarith)
  have hfl := floor_le_round_half_even (x * 100)
  have hq : (100 : ℚ) ≤ (round_half_even (x * 100) : ℚ) := by
    exact_mod_cast le_trans h100 hfl
  linarith

theorem tip_percentage_bounds (t : RawTrip) :
    0 ≤ tip_percentage t ∧ tip_percentage t ≤ 100 := by
  rcases htip : t.tip_amount with _ | tip <;> rcases hfare : t.fare_amount with _ | fare <;>
    simp [tip_percentage, htip, hfare]
  split
  · split <;> norm_num
  · constructor
    · exact le_min (by norm_num) (le_max_left 0 _)
    · exact min_le_left _ _

theorem hour_formula_bounds (ts : ℤ) :
    0 ≤ ts % 86400 / 3600 ∧ ts % 86400 / 3600 ≤ 23 := by
  have h1 : 0 ≤ ts % 86400 := Int.emod_nonneg ts (by norm_num)
  have h2 : ts % 86400 < 86400 := Int.emod_lt_of_pos ts (by norm_num)
  constructor
  · exact Int.ediv_nonneg h1 (by norm_num)
  · calc ts % 86400 / 3600 ≤ 86399 / 3600 := Int.ediv_le_ediv (by norm_num) (by omega)
      _ = 23 := by decide

/-- C8: every record surviving the full cleaning pipeline has a positive
trip duration, an average speed inside the closed interval `[1, 150]`
(records whose derived speed falls outside it were removed by the derive
stage filter), a tip percentage inside `[0, 100]`, and an hour of day in
`0–23`. -/
theorem clean_output_bounds (trips0 : List RawTrip) (c : CleanTrip)
    (hc : c ∈ (clean_pipeline trips0).2) :
    (∃ m, c.trip_duration_mins = some m ∧ 0 < m) ∧
    (∃ s, c.avg_speed_mph = some s ∧ 1 ≤ s ∧ s ≤ 150) ∧
    (0 ≤ c.tip_percentage ∧ c.tip_percentage ≤ 100) ∧
    (∃ h, c.hour_of_day = some h ∧ 0 ≤ h ∧ h ≤ 23) := by
  simp only [clean_pipeline, remove_bad] at hc
  rw [List.mem_filter] at hc
  obtain ⟨hmem, hspeed⟩ := hc
  rw [List.mem_map] at hmem
  obtain ⟨t, ht11, rfl⟩ := hmem
  rw [List.mem_filter] at ht11
  obtain ⟨_, hdu60⟩ := ht11
  rw [Bool.not_eq_true'] at hdu60
  rcases hs : avg_speed_mph t with _ | s
  · exfalso
    simp [speed_in_range, deriveFeatures, hs] at hspeed
  have hsbounds : 1 ≤ s ∧ s ≤ 150 := by
    simpa [speed_in_range, deriveFeatures, hs] using hspeed
  rcases hm : trip_duration_mins t with _ | m
  · exfalso
    rcases hd : t.trip_distance with _ | dist <;> simp [avg_speed_mph, hd, hm] at hs
  rcases hds : durationSecs t with _ | d
  · exfalso
    simp [trip_duration_mins, hds] at hm
  have hm' : m = round2 ((d : ℚ) / 60) := by
    rw [trip_duration_mins, hds] at hm
    exact (Option.some_inj.mp hm).symm
  have hd60 : ¬ d < 60 := by
    simpa [duration_under_60, hds] using hdu60
  have hm1 : (1 : ℚ) ≤ m := by
    rw [hm']
    refine one_le_round2 ?_
    have hd' : (60 : ℚ) ≤ (d : ℚ) := by exact_mod_cast (by omega : (60 : ℤ) ≤ d)
    linarith
  rcases hpu : t.pickup_datetime with _ | ts
  · exfalso
    rw [durationSecs, hpu] at hds
    simp at hds
  obtain ⟨hh0, hh23⟩ := hour_formula_bounds ts
  refine ⟨⟨m, ?_, by linarith⟩, ⟨s, ?_, hsbounds.1, hsbounds.2⟩, ?_, ?_⟩
  · simpa [deriveFeatures] using hm
  · simpa [deriveFeatures] using hs
  · simpa [deriveFeatures] using tip_percentage_bounds t
  · exact ⟨ts % 86400 / 3600, by simp [deriveFeatures, hour_of_day, hpu], hh0, hh23⟩

/-- Witness for C8: a 600-second, 10-mile, 10-dollar trip with a
2-dollar tip survives the pipeline and satisfies all the bounds. -/
theorem clean_output_bounds_witness :
    (∃ m, (deriveFeatures ⟨some 0, some 600, some 1, some 2, some 1, some 10, some 10,
        some 2⟩).trip_duration_mins = some m ∧ 0 < m) ∧
    (∃ s, (deriveFeatures ⟨some 0, some 600, some 1, some 2, some 1, some 10, some 10,
        some 2⟩).avg_speed_mph = some s ∧ 1 ≤ s ∧ s ≤ 150) ∧
    (0 ≤ (deriveFeatures ⟨some 0, some 600, some 1, some 2, some 1, some 10, some 10,
        some 2⟩).tip_percentage ∧
      (deriveFeatures ⟨some 0, some 600, some 1, some 2, some 1, some 10, some 10,
        some 2⟩).tip_percentage ≤ 100) ∧
    (∃ h, (deriveFeatures ⟨some 0, some 600, some 1, some 2, some 1, some 10, some 10,
        some 2⟩).hour_of_day = some h ∧ 0 ≤ h ∧ h ≤ 23) :=
  clean_output_bounds [⟨some 0, some 600, some 1, some 2, some 1, some 10, some 10, some 2⟩]
    (deriveFeatures ⟨some 0, some 600, some 1, some 2, some 1, some 10, some 10, some 2⟩)
    (by norm_num [clean_pipeline, remove_bad, dropDuplicates, dropDuplicatesAux, fillPassenger,
      hasMissingCritical, fare_nonpos, dist_nonpos, dist_over_200, fare_over_1000,
      passenger_invalid, dropoff_le_pickup, duration_over_86400, duration_under_60,
      durationSecs, deriveFeatures, trip_duration_mins, avg_speed_mph, tip_percentage,
      hour_of_day, get_time_of_day, speed_in_range, round2, round_half_even, round_eq])

end NycTaxi
